import Mathlib

/-!
Verification development for the browserzip streaming ZIP encoder
(src/browserzip.js).  The JavaScript source is shallowly embedded:
DataView little-endian writes at consecutive offsets become concatenated
little-endian byte lists, the entry registry (a JS Map) becomes an
insertion-ordered association list, Blob content becomes an explicit
list of chunks together with a readability flag, and the asynchronous
generation pipeline becomes a sequential, fallible state-passing loop
that also records the progress events delivered to the callback.
Bytes and machine integers are modelled as Nat (with explicit mod where
JS truncates); the 64-bit BigInt offset cursor is modelled exactly.
-/

namespace BrowserZip

/-! ## Little-endian byte serialization (DataView setUint16 / setUint32 / setBigUint64) -/

/-- Bytes written by DataView.setUint16 little-endian (truncates to 16 bits). -/
def u16Bytes (v : Nat) : List Nat := [v % 256, v / 256 % 256]

/-- Bytes written by DataView.setUint32 little-endian (truncates to 32 bits). -/
def u32Bytes (v : Nat) : List Nat :=
  [v % 256, v / 256 % 256, v / 65536 % 256, v / 16777216 % 256]

/-- Bytes written by DataView.setBigUint64 little-endian (truncates to 64 bits). -/
def u64Bytes (v : Nat) : List Nat :=
  [v % 256, v / 256 % 256, v / 65536 % 256, v / 16777216 % 256,
   v / 4294967296 % 256, v / 1099511627776 % 256, v / 281474976710656 % 256,
   v / 72057594037927936 % 256]

/-- JS ToUint32 conversion of a possibly negative integer. -/
def jsUint32 (v : Int) : Nat := (v % 4294967296).toNat

/-- JS BigInt.asUintN-style 64-bit wrap of a possibly negative integer. -/
def jsUint64 (v : Int) : Nat := (v % 18446744073709551616).toNat

def u32BytesI (v : Int) : List Nat := u32Bytes (jsUint32 v)

def u64BytesI (v : Int) : List Nat := u64Bytes (jsUint64 v)

/-! Decoders used only in specifications, to read fields back out of an
emitted record at a byte offset. -/

/-- Little-endian value of a byte list. -/
def decodeLE : List Nat → Nat
  | [] => 0
  | b :: l => b + 256 * decodeLE l

def readU16 (l : List Nat) (i : Nat) : Nat := decodeLE ((l.drop i).take 2)

def readU32 (l : List Nat) (i : Nat) : Nat := decodeLE ((l.drop i).take 4)

def readU64 (l : List Nat) (i : Nat) : Nat := decodeLE ((l.drop i).take 8)

/-! ## CRC-32 (BrowserZip._createCRC32Table and BrowserZip.computeCRC32) -/

/-- The 256-entry CRC-32 lookup table, from the source static method
_createCRC32Table: eight rounds of the reflected polynomial 0xEDB88320
per table index.  In JS, c is a 32-bit quantity and c >>> 1 is c / 2. -/
def createCRC32Table : List Nat :=
  (List.range 256).map (fun i =>
    (List.range 8).foldl (fun c _ => if c % 2 = 1 then Nat.xor 0xedb88320 (c / 2) else c / 2) i)

/-- Source computeCRC32: seed 0xFFFFFFFF, per byte
crc = (crc >>> 8) ^ table[(crc ^ b) & 0xff], final XOR with 0xFFFFFFFF. -/
def computeCRC32 (data : List Nat) : Nat :=
  Nat.xor
    (data.foldl
      (fun crc b => Nat.xor (crc / 256) (createCRC32Table.getD (Nat.xor crc b % 256) 0))
      0xffffffff)
    0xffffffff

/-! ## Names (TextEncoder UTF-8 encoding and the string manipulations of addFile/addFolder) -/

/-- UTF-8 encoding of one character (TextEncoder). -/
def utf8EncodeChar (c : Char) : List Nat :=
  let n := c.toNat
  if n < 128 then [n]
  else if n < 2048 then [192 + n / 64, 128 + n % 64]
  else if n < 65536 then [224 + n / 4096, 128 + n / 64 % 64, 128 + n % 64]
  else [240 + n / 262144, 128 + n / 4096 % 64, 128 + n / 64 % 64, 128 + n % 64]

/-- TextEncoder.encode on a whole string. -/
def utf8Encode (s : String) : List Nat := s.data.flatMap utf8EncodeChar

/-- JS name.endsWith("/"), computed on the character list so that the
kernel can evaluate it. -/
def endsWithSlash (s : String) : Bool := decide (s.data.getLast? = some '/')

/-- JS name.slice(0, -1): drop the final character. -/
def stripLastChar (s : String) : String := String.mk s.data.dropLast

/-- JS folderName += "/". -/
def appendSlash (s : String) : String := String.mk (s.data ++ ['/'])

/-! ## The entry registry data model -/

/-- Content stored in a file record.  The source keeps either an
in-memory Uint8Array (strings are eagerly UTF-8 encoded into one) or a
Blob; a Blob is modelled by the list of chunks its stream yields plus a
flag saying whether reading it succeeds. -/
inductive Content where
  | bytes (data : List Nat)
  | blob (chunks : List (List Nat)) (readOk : Bool)
deriving DecidableEq

/-- The size the source records at registration: Uint8Array length, or
Blob.size (the total of the streamed chunks for a well-behaved Blob). -/
def Content.declaredSize : Content → Nat
  | .bytes d => d.length
  | .blob cs _ => (cs.map List.length).sum

/-- One registry entry, mirroring the fileRecord object literal built by
addFile/addFolder.  localHeaderOffset is -1 until generation assigns it. -/
structure FileRecord where
  name : String
  encodedName : List Nat
  content : Content
  crc32 : Option Nat
  size : Nat
  isDirectory : Bool
  dosTime : Nat
  dosDate : Nat
  localHeaderOffset : Int
deriving DecidableEq

/-- The fields of a record that registration fixes and that generation
never rewrites (everything except crc32 and localHeaderOffset). -/
def coreView (r : FileRecord) : String × List Nat × Content × Nat × Bool × Nat × Nat :=
  (r.name, r.encodedName, r.content, r.size, r.isDirectory, r.dosTime, r.dosDate)

/-- Well-formedness of a record as produced by addFile/addFolder: the
recorded size is the true content size, and directories are empty. -/
def WFRecord (r : FileRecord) : Prop :=
  r.size = r.content.declaredSize ∧ (r.isDirectory = true → r.size = 0)

instance (r : FileRecord) : Decidable (WFRecord r) := by
  unfold WFRecord; infer_instance

/-- JS Map.has on the insertion-ordered registry. -/
def mapHas (files : List FileRecord) (n : String) : Bool :=
  files.any (fun f => decide (f.name = n))

/-- JS Map.set: replaces in place if the key exists (keeping insertion
order), otherwise appends. -/
def mapSet (files : List FileRecord) (r : FileRecord) : List FileRecord :=
  if mapHas files r.name then
    files.map (fun f => if f.name = r.name then r else f)
  else files ++ [r]

/-- The content argument accepted by addFile (Blob, string, or
Uint8Array).  The unsupported-type error path is outside this model. -/
inductive ContentArg where
  | blobArg (chunks : List (List Nat)) (readOk : Bool)
  | stringArg (s : String)
  | bytesArg (data : List Nat)

/-- Source addFile.  Note the order of operations: the duplicate check
uses the argument name, and only afterwards is a trailing slash
stripped; the MS-DOS date conversion is abstracted by passing the
already packed dosTime/dosDate fields. -/
def addFile (files : List FileRecord) (name : String) (content : ContentArg)
    (dosTime dosDate : Nat) : List FileRecord :=
  if mapHas files name then files
  else
    let name := if endsWithSlash name then stripLastChar name else name
    let encodedName := utf8Encode name
    match content with
    | .blobArg chunks readOk =>
        mapSet files
          { name := name, encodedName := encodedName, content := .blob chunks readOk,
            crc32 := none, size := (Content.blob chunks readOk).declaredSize,
            isDirectory := false, dosTime := dosTime, dosDate := dosDate,
            localHeaderOffset := -1 }
    | .stringArg s =>
        let stored := utf8Encode s
        mapSet files
          { name := name, encodedName := encodedName, content := .bytes stored,
            crc32 := some (computeCRC32 stored), size := stored.length,
            isDirectory := false, dosTime := dosTime, dosDate := dosDate,
            localHeaderOffset := -1 }
    | .bytesArg d =>
        mapSet files
          { name := name, encodedName := encodedName, content := .bytes d,
            crc32 := some (computeCRC32 d), size := d.length,
            isDirectory := false, dosTime := dosTime, dosDate := dosDate,
            localHeaderOffset := -1 }

/-- Source addFolder: normalize the name to end with a slash, then apply
the duplicate check, then register a size-0, CRC-0 directory entry. -/
def addFolder (files : List FileRecord) (folderName : String)
    (dosTime dosDate : Nat) : List FileRecord :=
  let folderName := if endsWithSlash folderName then folderName else appendSlash folderName
  if mapHas files folderName then files
  else
    mapSet files
      { name := folderName, encodedName := utf8Encode folderName,
        content := .bytes [], crc32 := some 0, size := 0,
        isDirectory := true, dosTime := dosTime, dosDate := dosDate,
        localHeaderOffset := -1 }

/-! ## Record writers (createLocalFileHeader, createCentralDirectoryHeader, createEndRecords)

The JS code allocates a buffer and performs DataView writes at
consecutive offsets; the embedding concatenates the written fields in
the same order, annotating each with its byte offset. -/

/-- Source createLocalFileHeader. -/
def createLocalFileHeader (r : FileRecord) : List Nat :=
  u32Bytes 0x04034B50                                                -- offset 0: signature
  ++ u16Bytes (if 0xFFFFFFFF ≤ r.size then 0x002D else 0x0014)       -- offset 4: version needed
  ++ u16Bytes 0x0800                                                 -- offset 6: flags (UTF-8 bit only)
  ++ u16Bytes 0x0000                                                 -- offset 8: method (store)
  ++ u16Bytes r.dosTime                                              -- offset 10
  ++ u16Bytes r.dosDate                                              -- offset 12
  ++ u32Bytes (r.crc32.getD 0)                                       -- offset 14: crc32 or 0
  ++ u32Bytes (if 0xFFFFFFFF ≤ r.size then 0xFFFFFFFF else r.size)   -- offset 18: compressed size
  ++ u32Bytes (if 0xFFFFFFFF ≤ r.size then 0xFFFFFFFF else r.size)   -- offset 22: uncompressed size
  ++ u16Bytes r.encodedName.length                                   -- offset 26: name length
  ++ u16Bytes (if 0xFFFFFFFF ≤ r.size then 4 + 16 else 0)            -- offset 28: extra length
  ++ r.encodedName                                                   -- offset 30: name
  ++ (if 0xFFFFFFFF ≤ r.size then                                    -- ZIP64 extra field
        u16Bytes 0x0001 ++ u16Bytes 16 ++ u64Bytes r.size ++ u64Bytes r.size
      else [])

/-- Source createCentralDirectoryHeader.  The ZIP64 extra data carries
the sizes when the size overflows and the 64-bit offset when the offset
overflows, in that order. -/
def createCentralDirectoryHeader (r : FileRecord) : List Nat :=
  let needsSizeZip64 : Prop := 0xFFFFFFFF ≤ r.size
  let needsOffsetZip64 : Prop := (0xFFFFFFFF : Int) ≤ r.localHeaderOffset
  let zip64Data : List Nat :=
    (if needsSizeZip64 then u64Bytes r.size ++ u64Bytes r.size else [])
    ++ (if needsOffsetZip64 then u64BytesI r.localHeaderOffset else [])
  u32Bytes 0x02014B50                                                -- offset 0: signature
  ++ u16Bytes (if needsSizeZip64 ∨ needsOffsetZip64 then 0x002D else 0x0014)  -- offset 4: version made by
  ++ u16Bytes (if needsSizeZip64 ∨ needsOffsetZip64 then 0x002D else 0x0014)  -- offset 6: version needed
  ++ u16Bytes 0x0800                                                 -- offset 8: flags
  ++ u16Bytes 0x0000                                                 -- offset 10: method
  ++ u16Bytes r.dosTime                                              -- offset 12
  ++ u16Bytes r.dosDate                                              -- offset 14
  ++ u32Bytes (r.crc32.getD 0)                                       -- offset 16
  ++ u32Bytes (if needsSizeZip64 then 0xFFFFFFFF else r.size)        -- offset 20: compressed size
  ++ u32Bytes (if needsSizeZip64 then 0xFFFFFFFF else r.size)        -- offset 24: uncompressed size
  ++ u16Bytes r.encodedName.length                                   -- offset 28: name length
  ++ u16Bytes (if 0 < zip64Data.length then 4 + zip64Data.length else 0)  -- offset 30: extra length
  ++ u16Bytes 0                                                      -- offset 32: comment length
  ++ u16Bytes 0                                                      -- offset 34: disk number start
  ++ u16Bytes 0                                                      -- offset 36: internal attributes
  ++ u32Bytes (if r.isDirectory then 0x10 * 65536 else 0)            -- offset 38: external attributes
  ++ u32BytesI (if needsOffsetZip64 then 0xFFFFFFFF else r.localHeaderOffset)  -- offset 42
  ++ r.encodedName                                                   -- offset 46: name
  ++ (if 0 < zip64Data.length then
        u16Bytes 0x0001 ++ u16Bytes zip64Data.length ++ zip64Data
      else [])

/-- Source createEndRecords: the standard 22-byte EOCD, preceded by the
56-byte ZIP64 EOCD record and the 20-byte ZIP64 EOCD locator exactly
when a count/size/offset limit is reached. -/
def createEndRecords (centralDirectoryOffset centralDirectorySize totalEntries : Nat) :
    List (List Nat) :=
  let useZip64 : Prop :=
    0xFFFFFFFF ≤ centralDirectoryOffset ∨ 0xFFFFFFFF ≤ centralDirectorySize
      ∨ 0xFFFF ≤ totalEntries
  let eocd : List Nat :=
    u32Bytes 0x06054B50                                              -- offset 0: signature
    ++ u16Bytes 0                                                    -- offset 4: disk number
    ++ u16Bytes 0                                                    -- offset 6: disk where CD starts
    ++ u16Bytes (if useZip64 then 0xFFFF else totalEntries)          -- offset 8: entries this disk
    ++ u16Bytes (if useZip64 then 0xFFFF else totalEntries)          -- offset 10: total entries
    ++ u32Bytes (if useZip64 then 0xFFFFFFFF else centralDirectorySize)    -- offset 12: CD size
    ++ u32Bytes (if useZip64 then 0xFFFFFFFF else centralDirectoryOffset)  -- offset 16: CD offset
    ++ u16Bytes 0                                                    -- offset 20: comment length
  if useZip64 then
    let zip64End : List Nat :=
      u32Bytes 0x06064B50                                            -- offset 0: signature
      ++ u64Bytes 44                                                 -- offset 4: size of record
      ++ u16Bytes 0x002D                                             -- offset 12: version made by
      ++ u16Bytes 0x002D                                             -- offset 14: version needed
      ++ u32Bytes 0                                                  -- offset 16: this disk
      ++ u32Bytes 0                                                  -- offset 20: CD start disk
      ++ u64Bytes totalEntries                                       -- offset 24: entries this disk
      ++ u64Bytes totalEntries                                       -- offset 32: total entries
      ++ u64Bytes centralDirectorySize                               -- offset 40: CD size
      ++ u64Bytes centralDirectoryOffset                             -- offset 48: CD offset
    let zip64Locator : List Nat :=
      u32Bytes 0x07064B50                                            -- offset 0: signature
      ++ u32Bytes 0                                                  -- offset 4: disk with ZIP64 EOCD
      ++ u64Bytes (centralDirectoryOffset + centralDirectorySize)    -- offset 8: ZIP64 EOCD offset
      ++ u32Bytes 1                                                  -- offset 16: total disks
    [zip64End, zip64Locator, eocd]
  else [eocd]

/-! ## Generation (generateZipStream and its updateProgress closure) -/

/-- One progress callback invocation. -/
structure ProgressEvent where
  filename : String
  fileBytesProcessed : Nat
  fileTotalBytes : Nat
  overallProgressPercent : Nat
deriving DecidableEq

/-- Source updateProgress percentage: floor((processed * 100) / total)
capped at 100 when the total is positive, and 100 otherwise (the record
argument is never null at a call site). -/
def overallPercent (total processed : Nat) : Nat :=
  if 0 < total then min 100 (processed * 100 / total) else 100

def mkEvent (total processed : Nat) (r : FileRecord) (fileProcessed fileTotal : Nat) :
    ProgressEvent :=
  { filename := r.name, fileBytesProcessed := fileProcessed,
    fileTotalBytes := fileTotal, overallProgressPercent := overallPercent total processed }

/-- Step 1 of the per-entry pipeline: obtain the CRC.  A Blob with no
cached CRC is sent to the worker pool (which either computes the CRC of
the streamed bytes or fails); a directory gets CRC 0. -/
def acquireCRC32 (r : FileRecord) : Except String FileRecord :=
  match r.crc32, r.content with
  | none, .blob chunks readOk =>
      if readOk then .ok { r with crc32 := some (computeCRC32 chunks.flatten) }
      else .error (String.append "CRC32 error for " r.name)
  | _, _ => .ok (if r.isDirectory then { r with crc32 := some 0 } else r)

/-- Result of emitting one content section. -/
structure EmitResult where
  chunks : List (List Nat)
  events : List ProgressEvent
  currentOffset : Nat
  processedSize : Nat

/-- The Blob streaming loop: enqueue each chunk, advance the offset and
the processed counters, and report progress after every chunk. -/
def emitBlobLoop (total : Nat) (r : FileRecord) (fileSize : Nat) :
    List (List Nat) → Nat → Nat → Nat → EmitResult
  | [], ofs, ps, _ => ⟨[], [], ofs, ps⟩
  | c :: cs, ofs, ps, fp =>
      let rest := emitBlobLoop total r fileSize cs (ofs + c.length) (ps + c.length)
        (fp + c.length)
      ⟨c :: rest.chunks,
       mkEvent total (ps + c.length) r (fp + c.length) fileSize :: rest.events,
       rest.currentOffset, rest.processedSize⟩

/-- Step 4 of the per-entry pipeline: stream the content (if the entry
is not a directory and has a positive size), reporting progress before
the first byte and after every chunk; otherwise report a single 0/0
progress event. -/
def emitContent (total : Nat) (r : FileRecord) (ofs ps : Nat) :
    Except (String × List ProgressEvent) EmitResult :=
  if r.isDirectory = false ∧ 0 < r.size then
    let ev0 := mkEvent total ps r 0 r.size
    match r.content with
    | .blob cs readOk =>
        if readOk then
          let res := emitBlobLoop total r r.size cs ofs ps 0
          .ok ⟨res.chunks, ev0 :: res.events, res.currentOffset, res.processedSize⟩
        else .error (String.append "read error for " r.name, [ev0])
    | .bytes d =>
        .ok ⟨[d], [ev0, mkEvent total (ps + d.length) r d.length r.size],
             ofs + d.length, ps + d.length⟩
  else
    .ok ⟨[], [mkEvent total ps r 0 0], ofs, ps⟩

/-- Result of processing one entry. -/
structure EntryResult where
  record : FileRecord
  chunks : List (List Nat)
  events : List ProgressEvent
  cdEntry : List Nat
  currentOffset : Nat
  processedSize : Nat

/-- Failure while processing one entry, carrying the record as it stands
at the moment of the failure together with the chunks and events already
emitted for this entry. -/
structure EntryFail where
  msg : String
  record : FileRecord
  chunks : List (List Nat)
  events : List ProgressEvent

/-- The body of the per-entry loop of generateZipStream: acquire the
CRC, record the local header offset from the running cursor, emit the
local header, emit the content, and build the central directory record. -/
def processEntry (total ofs ps : Nat) (r : FileRecord) : Except EntryFail EntryResult :=
  match acquireCRC32 r with
  | .error msg => .error ⟨msg, r, [], []⟩
  | .ok r1 =>
      let r2 := { r1 with localHeaderOffset := (ofs : Int) }
      let localHeader := createLocalFileHeader r2
      match emitContent total r2 (ofs + localHeader.length) ps with
      | .error (msg, evs) => .error ⟨msg, r2, [localHeader], evs⟩
      | .ok em =>
          .ok ⟨r2, localHeader :: em.chunks, em.events,
               createCentralDirectoryHeader r2, em.currentOffset, em.processedSize⟩

/-- Loop state of the generation pipeline. -/
structure LoopState where
  doneRecords : List FileRecord
  chunks : List (List Nat)
  events : List ProgressEvent
  cdEntries : List (List Nat)
  currentOffset : Nat
  processedSize : Nat

/-- Failure state of the generation pipeline: the registry as the maps
records stand after the error, plus what was already emitted. -/
structure GenFail where
  msg : String
  filesAfter : List FileRecord
  chunks : List (List Nat)
  events : List ProgressEvent

/-- The entry loop of generateZipStream. -/
def generateEntries (total : Nat) (st : LoopState) :
    List FileRecord → Except GenFail LoopState
  | [] => .ok st
  | r :: rs =>
      match processEntry total st.currentOffset st.processedSize r with
      | .error f =>
          .error ⟨f.msg, st.doneRecords ++ f.record :: rs,
                  st.chunks ++ f.chunks, st.events ++ f.events⟩
      | .ok er =>
          generateEntries total
            ⟨st.doneRecords ++ [er.record], st.chunks ++ er.chunks,
             st.events ++ er.events, st.cdEntries ++ [er.cdEntry],
             er.currentOffset, er.processedSize⟩ rs

/-- The observable outcome of one generateZipStream call: the chunks
enqueued on the stream (all of them on success, the prefix emitted
before the failure otherwise), the progress events delivered, the error
passed to the stream controller if any, and the registry after the call. -/
structure GenResult where
  chunks : List (List Nat)
  events : List ProgressEvent
  error : Option String
  filesAfter : List FileRecord
deriving DecidableEq

/-- Source generateZipStream: per entry in registration order emit local
header then content; then every central directory record; then the end
records; clear the registry only when everything succeeded and
clearAfterGenerate is set.  The 64-bit cursor currentOffset is modelled
exactly. -/
def generateZipStream (files : List FileRecord) (clearAfterGenerate : Bool) : GenResult :=
  let totalUncompressedSize := (files.map (fun r => r.size)).sum
  match generateEntries totalUncompressedSize ⟨[], [], [], [], 0, 0⟩ files with
  | .error f => ⟨f.chunks, f.events, some f.msg, f.filesAfter⟩
  | .ok st =>
      let centralDirSize := (st.cdEntries.map List.length).sum
      let endRecords := createEndRecords st.currentOffset centralDirSize files.length
      ⟨st.chunks ++ st.cdEntries ++ endRecords, st.events, none,
       if clearAfterGenerate then [] else st.doneRecords⟩

/-! ## Specification-side decompositions of the output -/

/-- The content chunks the generator emits for one (already mutated)
record: nothing for directories and empty files, the single stored
buffer for in-memory content, the streamed chunks for a Blob. -/
def emittedContent (r : FileRecord) : List (List Nat) :=
  if r.isDirectory = false ∧ 0 < r.size then
    match r.content with
    | .blob cs _ => cs
    | .bytes d => [d]
  else []

/-- The contiguous output block of one entry: its local header
immediately followed by its content chunks. -/
def entryBlock (r : FileRecord) : List (List Nat) :=
  createLocalFileHeader r :: emittedContent r

/-- Total byte length of a list of chunks. -/
def blockBytes (l : List (List Nat)) : Nat := (l.map List.length).sum

end BrowserZip


namespace BrowserZip

/-! ## Basic facts about the byte serializers and chunk accounting -/

@[simp] lemma u16Bytes_length (v : Nat) : (u16Bytes v).length = 2 := rfl

@[simp] lemma u32Bytes_length (v : Nat) : (u32Bytes v).length = 4 := rfl

@[simp] lemma u64Bytes_length (v : Nat) : (u64Bytes v).length = 8 := rfl

@[simp] lemma blockBytes_nil : blockBytes [] = 0 := rfl

@[simp] lemma blockBytes_cons (c : List Nat) (l : List (List Nat)) :
    blockBytes (c :: l) = c.length + blockBytes l := by
  simp [blockBytes]

@[simp] lemma blockBytes_append (a b : List (List Nat)) :
    blockBytes (a ++ b) = blockBytes a + blockBytes b := by
  simp [blockBytes]

lemma blockBytes_entryBlock (x : FileRecord) :
    blockBytes (entryBlock x)
      = (createLocalFileHeader x).length + blockBytes (emittedContent x) := by
  simp [entryBlock]

lemma blockBytes_eq_length_join (l : List (List Nat)) : blockBytes l = l.flatten.length := by
  simp [blockBytes]

/-! ## Record and core-view facts -/

lemma coreView_fields {a b : FileRecord} (h : coreView a = coreView b) :
    a.name = b.name ∧ a.encodedName = b.encodedName ∧ a.content = b.content ∧
    a.size = b.size ∧ a.isDirectory = b.isDirectory ∧ a.dosTime = b.dosTime ∧
    a.dosDate = b.dosDate := by
  simpa [coreView, Prod.ext_iff] using h

lemma WFRecord_of_coreView {a b : FileRecord} (h : coreView a = coreView b)
    (hw : WFRecord b) : WFRecord a := by
  obtain ⟨-, -, hc, hs, hd, -, -⟩ := coreView_fields h
  unfold WFRecord at hw ⊢
  rw [hc, hs, hd]
  exact hw

lemma emittedContent_congr {a b : FileRecord} (h : coreView a = coreView b) :
    emittedContent a = emittedContent b := by
  obtain ⟨-, -, hc, hs, hd, -, -⟩ := coreView_fields h
  unfold emittedContent
  rw [hc, hs, hd]

/-- For a well-formed record, the emitted content carries exactly the
recorded size in bytes. -/
lemma blockBytes_emittedContent {r : FileRecord} (hwf : WFRecord r) :
    blockBytes (emittedContent r) = r.size := by
  obtain ⟨hsz, hdir⟩ := hwf
  unfold emittedContent
  split
  case isTrue hc =>
    cases hco : r.content with
    | bytes d =>
        rw [hco] at hsz
        simp only [Content.declaredSize] at hsz
        simp [blockBytes, hsz]
    | blob cs readOk =>
        rw [hco] at hsz
        simp only [Content.declaredSize] at hsz
        simp [blockBytes, hsz]
  case isFalse hc =>
    rcases Decidable.not_and_iff_or_not.mp hc with hd | hs
    · have hb : r.isDirectory = true := by
        cases hb : r.isDirectory
        · exact absurd hb hd
        · rfl
      simp [(hdir hb).symm]
    · simp only [blockBytes_nil]
      omega

/-! ## The acquire / emit / per-entry pipeline lemmas -/

lemma acquireCRC32_ok_spec {r r1 : FileRecord} (h : acquireCRC32 r = .ok r1) :
    coreView r1 = coreView r ∧ r1.localHeaderOffset = r.localHeaderOffset := by
  unfold acquireCRC32 at h
  split at h
  next cs readOk hc hco =>
    split at h
    · simp only [Except.ok.injEq] at h
      subst h
      simp [coreView, hco]
    · cases h
  next hother =>
    simp only [Except.ok.injEq] at h
    subst h
    split
    · simp [coreView]
    · simp [coreView]

lemma emitBlobLoop_spec (total : Nat) (r : FileRecord) (fs : Nat) :
    ∀ (cs : List (List Nat)) (ofs ps fp : Nat),
      (emitBlobLoop total r fs cs ofs ps fp).chunks = cs ∧
      (emitBlobLoop total r fs cs ofs ps fp).currentOffset = ofs + blockBytes cs ∧
      (emitBlobLoop total r fs cs ofs ps fp).processedSize = ps + blockBytes cs ∧
      (emitBlobLoop total r fs cs ofs ps fp).events.length = cs.length
  | [], ofs, ps, fp => by simp [emitBlobLoop]
  | c :: cs, ofs, ps, fp => by
      obtain ⟨h1, h2, h3, h4⟩ :=
        emitBlobLoop_spec total r fs cs (ofs + c.length) (ps + c.length) (fp + c.length)
      refine ⟨?_, ?_, ?_, ?_⟩ <;> simp [emitBlobLoop, h1, h2, h3, h4] <;> omega

lemma emitContent_ok_spec {total : Nat} {r : FileRecord} {ofs ps : Nat} {em : EmitResult}
    (h : emitContent total r ofs ps = .ok em) :
    em.chunks = emittedContent r ∧
    em.currentOffset = ofs + blockBytes (emittedContent r) ∧
    em.processedSize = ps + blockBytes (emittedContent r) := by
  unfold emitContent at h
  split at h
  case isTrue hc =>
    split at h
    next x cs readOk heq =>
      split at h
      · simp only [Except.ok.injEq] at h
        subst h
        obtain ⟨h1, h2, h3, -⟩ := emitBlobLoop_spec total r r.size cs ofs ps 0
        simp [emittedContent, hc, heq, h1, h2, h3]
      · cases h
    next x d heq =>
      simp only [Except.ok.injEq] at h
      subst h
      simp [emittedContent, hc, heq]
  case isFalse hc =>
    simp only [Except.ok.injEq] at h
    subst h
    simp [emittedContent, hc]

lemma processEntry_ok_spec {total ofs ps : Nat} {r : FileRecord} {er : EntryResult}
    (h : processEntry total ofs ps r = .ok er) :
    er.record.localHeaderOffset = (ofs : Int) ∧
    er.chunks = entryBlock er.record ∧
    er.cdEntry = createCentralDirectoryHeader er.record ∧
    er.currentOffset = ofs + blockBytes (entryBlock er.record) ∧
    er.processedSize = ps + blockBytes (emittedContent er.record) ∧
    coreView er.record = coreView r := by
  unfold processEntry at h
  split at h
  next msg heq => cases h
  next r1 heq =>
    dsimp only at h
    split at h
    next msg evs hemit => cases h
    next em hemit =>
      simp only [Except.ok.injEq] at h
      subst h
      obtain ⟨e1, e2, e3⟩ := emitContent_ok_spec hemit
      obtain ⟨a1, -⟩ := acquireCRC32_ok_spec heq
      have hcv : coreView { r1 with localHeaderOffset := (ofs : Int) } = coreView r1 := by
        simp [coreView]
      refine ⟨rfl, ?_, rfl, ?_, ?_, ?_⟩
      · simp [entryBlock, e1]
      · simp only [blockBytes_entryBlock]
        simp [e2]
        omega
      · simpa using e3
      · rw [hcv, a1]

lemma processEntry_error_spec {total ofs ps : Nat} {r : FileRecord} {ef : EntryFail}
    (h : processEntry total ofs ps r = .error ef) :
    coreView ef.record = coreView r := by
  unfold processEntry at h
  split at h
  next msg heq =>
    simp only [Except.error.injEq] at h
    subst h
    rfl
  next r1 heq =>
    dsimp only at h
    split at h
    next msg evs hemit =>
      simp only [Except.error.injEq] at h
      subst h
      obtain ⟨a1, -⟩ := acquireCRC32_ok_spec heq
      have hcv : coreView { r1 with localHeaderOffset := (ofs : Int) } = coreView r1 := by
        simp [coreView]
      simpa [hcv] using a1
    next em hemit => cases h

/-! ## The generation loop -/

/-- What a successful run of the entry loop produces: the mutated
records in order, their output blocks appended in order, their central
directory records collected in order, the cursor advanced by exactly
the emitted bytes, and each record assigned the byte offset at which
its block starts. -/
lemma generateEntries_ok_spec (total : Nat) :
    ∀ (files : List FileRecord) (st st' : LoopState),
      generateEntries total st files = .ok st' →
      ∃ recs : List FileRecord,
        st'.doneRecords = st.doneRecords ++ recs ∧
        st'.chunks = st.chunks ++ recs.flatMap entryBlock ∧
        st'.cdEntries = st.cdEntries ++ recs.map createCentralDirectoryHeader ∧
        st'.currentOffset = st.currentOffset + blockBytes (recs.flatMap entryBlock) ∧
        recs.length = files.length ∧
        recs.map coreView = files.map coreView ∧
        ∀ i (hi : i < recs.length),
          (recs.get ⟨i, hi⟩).localHeaderOffset =
            ((st.currentOffset + blockBytes ((recs.take i).flatMap entryBlock) : Nat) : Int)
  | [], st, st', h => by
      simp only [generateEntries] at h
      simp only [Except.ok.injEq] at h
      subst h
      exact ⟨[], by simp, by simp, by simp, by simp, rfl, rfl,
        fun i hi => absurd hi (by simp)⟩
  | r :: rs, st, st', h => by
      simp only [generateEntries] at h
      split at h
      next f hp => cases h
      next er hp =>
        obtain ⟨p1, p2, p3, p4, p5, p6⟩ := processEntry_ok_spec hp
        obtain ⟨recs, h1, h2, h3, h4, h5, h6, h7⟩ :=
          generateEntries_ok_spec total rs _ st' h
        refine ⟨er.record :: recs, ?_, ?_, ?_, ?_, ?_, ?_, ?_⟩
        · simpa using h1
        · rw [h2]
          simp [p2]
        · rw [h3]
          simp [p3]
        · rw [h4]
          simp [p4]
          omega
        · simpa using h5
        · simpa [p6] using h6
        · intro i hi
          cases i with
          | zero =>
              simpa using p1
          | succ j =>
              have hj : j < recs.length := by
                simpa using hi
              have := h7 j hj
              simp only [List.get_cons_succ, List.take_succ_cons, List.flatMap_cons,
                blockBytes_append] at this ⊢
              rw [this]
              simp [p4]
              ring

/-- A failing run of the entry loop leaves a registry with exactly the
same names, contents, sizes, directory flags and timestamps as the
input, in the same order (only the crc32 cache and the scratch offset
field of already processed records differ). -/
lemma generateEntries_error_spec (total : Nat) :
    ∀ (files : List FileRecord) (st : LoopState) (f : GenFail),
      generateEntries total st files = .error f →
      f.filesAfter.map coreView = st.doneRecords.map coreView ++ files.map coreView
  | [], st, f, h => by
      simp only [generateEntries] at h
      cases h
  | r :: rs, st, f, h => by
      simp only [generateEntries] at h
      split at h
      next ef hp =>
        simp only [Except.error.injEq] at h
        subst h
        have := processEntry_error_spec hp
        simp [this]
      next er hp =>
        obtain ⟨-, -, -, -, -, p6⟩ := processEntry_ok_spec hp
        have := generateEntries_error_spec total rs _ f h
        simpa [p6] using this

/-! ## Progress event reasoning -/

lemma overallPercent_le_100 (t p : Nat) : overallPercent t p ≤ 100 := by
  unfold overallPercent
  split
  · exact Nat.min_le_left _ _
  · exact Nat.le_refl _

lemma overallPercent_mono (t : Nat) {p q : Nat} (h : p ≤ q) :
    overallPercent t p ≤ overallPercent t q := by
  unfold overallPercent
  split
  · exact min_le_min (Nat.le_refl _)
      (Nat.div_le_div_right (Nat.mul_le_mul_right _ h))
  · exact Nat.le_refl _

lemma overallPercent_self (t : Nat) : overallPercent t t = 100 := by
  unfold overallPercent
  split
  next ht =>
    rw [Nat.mul_comm, Nat.mul_div_cancel _ ht]
    simp
  next => rfl

/-- Invariant satisfied by the progress events produced while the
processed byte counter climbs from lo to hi: percentages are ordered,
they all lie between the percentages of lo and of hi, and the last one
is exactly the percentage of hi. -/
def EventsOk (total lo hi : Nat) (evs : List ProgressEvent) : Prop :=
  List.Chain' (fun a b => a.overallProgressPercent ≤ b.overallProgressPercent) evs ∧
  (∀ e ∈ evs, overallPercent total lo ≤ e.overallProgressPercent ∧
      e.overallProgressPercent ≤ overallPercent total hi) ∧
  (∀ e, evs.getLast? = some e → e.overallProgressPercent = overallPercent total hi)

lemma EventsOk_nil (total p : Nat) : EventsOk total p p [] := by
  refine ⟨List.chain'_nil, ?_, ?_⟩
  · intro e he
    cases he
  · intro e he
    cases he

lemma EventsOk.append {total lo mid hi : Nat} {evs1 evs2 : List ProgressEvent}
    (hlm : lo ≤ mid) (hmh : mid ≤ hi)
    (h1 : EventsOk total lo mid evs1) (h2 : EventsOk total mid hi evs2)
    (hne : evs2 = [] → mid = hi) :
    EventsOk total lo hi (evs1 ++ evs2) := by
  obtain ⟨c1, b1, l1⟩ := h1
  obtain ⟨c2, b2, l2⟩ := h2
  refine ⟨?_, ?_, ?_⟩
  · rw [List.chain'_append]
    refine ⟨c1, c2, ?_⟩
    intro x hx y hy
    have hx2 := (b1 x (List.mem_of_mem_getLast? hx)).2
    have hy2 := (b2 y (List.mem_of_mem_head? hy)).1
    exact hx2.trans hy2
  · intro e he
    rcases List.mem_append.mp he with h | h
    · obtain ⟨e1, e2⟩ := b1 e h
      exact ⟨e1, e2.trans (overallPercent_mono total hmh)⟩
    · obtain ⟨e1, e2⟩ := b2 e h
      exact ⟨(overallPercent_mono total hlm).trans e1, e2⟩
  · intro e he
    rcases heq : evs2 with _ | ⟨x, xs⟩
    · rw [heq, List.append_nil] at he
      rw [← hne heq]
      exact l1 e he
    · rw [heq, List.getLast?_append_of_ne_nil _ (by simp)] at he
      rw [← heq] at he
      exact l2 e he

lemma EventsOk_cons_zero {total lo hi : Nat} {evs : List ProgressEvent}
    {e : ProgressEvent} (hlh : lo ≤ hi)
    (hpe : e.overallProgressPercent = overallPercent total lo)
    (h : EventsOk total lo hi evs)
    (hne : evs = [] → lo = hi) :
    EventsOk total lo hi (e :: evs) := by
  have : EventsOk total lo lo [e] := by
    refine ⟨List.chain'_singleton e, ?_, ?_⟩
    · intro x hx
      rw [List.mem_singleton] at hx
      subst hx
      simp [hpe]
    · intro x hx
      simp only [List.getLast?_singleton, Option.some.injEq] at hx
      subst hx
      exact hpe
  simpa using EventsOk.append (Nat.le_refl lo) hlh this h hne

lemma EventsOk.weaken {total lo lo2 hi : Nat} {evs : List ProgressEvent}
    (h : EventsOk total lo hi evs) (hl : lo2 ≤ lo) : EventsOk total lo2 hi evs := by
  obtain ⟨c, b, l⟩ := h
  refine ⟨c, ?_, l⟩
  intro e he
  obtain ⟨e1, e2⟩ := b e he
  exact ⟨(overallPercent_mono total hl).trans e1, e2⟩

lemma emitBlobLoop_events (total : Nat) (r : FileRecord) (fs : Nat) :
    ∀ (cs : List (List Nat)) (ofs ps fp : Nat),
      EventsOk total ps (ps + blockBytes cs) (emitBlobLoop total r fs cs ofs ps fp).events
  | [], ofs, ps, fp => by
      simpa [emitBlobLoop] using EventsOk_nil total ps
  | c :: cs, ofs, ps, fp => by
      have ih := emitBlobLoop_events total r fs cs (ofs + c.length) (ps + c.length)
        (fp + c.length)
      have h4 := (emitBlobLoop_spec total r fs cs (ofs + c.length) (ps + c.length)
        (fp + c.length)).2.2.2
      simp only [emitBlobLoop, blockBytes_cons]
      have hcons : EventsOk total (ps + c.length) (ps + c.length + blockBytes cs)
          (mkEvent total (ps + c.length) r (fp + c.length) fs ::
            (emitBlobLoop total r fs cs (ofs + c.length) (ps + c.length) (fp + c.length)).events) := by
    
        refine EventsOk_cons_zero (Nat.le_add_right _ _) rfl ih ?_
        intro hnil
        have : cs.length = 0 := by rw [← h4, hnil]; rfl
        have : cs = [] := List.length_eq_zero.mp this
        subst this
        simp
      have hw := hcons.weaken (Nat.le_add_right ps c.length)
      simpa [Nat.add_assoc] using hw

lemma emitContent_events {total : Nat} {r : FileRecord} {ofs ps : Nat} {em : EmitResult}
    (hwf : WFRecord r) (h : emitContent total r ofs ps = .ok em) :
    EventsOk total ps (ps + r.size) em.events ∧ em.events ≠ [] := by
  have hbb : blockBytes (emittedContent r) = r.size := blockBytes_emittedContent hwf
  unfold emitContent at h
  split at h
  case isTrue hc =>
    split at h
    next x cs readOk heq =>
      split at h
      · simp only [Except.ok.injEq] at h
        subst h
        have ih := emitBlobLoop_events total r r.size cs ofs ps 0
        have h4 := (emitBlobLoop_spec total r r.size cs ofs ps 0).2.2.2
        have hcs : blockBytes cs = r.size := by
          rw [← hbb]
          simp [emittedContent, hc, heq]
        rw [hcs] at ih
        refine ⟨?_, by simp⟩
        simp only []
        refine EventsOk_cons_zero ?_ rfl ih ?_
        · exact Nat.le_add_right _ _
        · intro hnil
          have : cs.length = 0 := by rw [← h4, hnil]; rfl
          have hcsnil : cs = [] := List.length_eq_zero.mp this
          rw [hcsnil] at hcs
          simp only [blockBytes_nil] at hcs
          omega
      · simp at h
    next x d heq =>
      simp only [Except.ok.injEq] at h
      subst h
      have hd : d.length = r.size := by
        rw [← hbb]
        simp [emittedContent, hc, heq]
      refine ⟨?_, by simp⟩
      simp only []
      rw [← hd]
      refine ⟨?_, ?_, ?_⟩
      · refine List.chain'_cons.mpr ⟨?_, List.chain'_singleton _⟩
        exact overallPercent_mono total (Nat.le_add_right _ _)
      · intro e he
        rcases List.mem_cons.mp he with he | he
        · subst he
          exact ⟨Nat.le_refl _, overallPercent_mono total (Nat.le_add_right _ _)⟩
        · rw [List.mem_singleton] at he
          subst he
          exact ⟨overallPercent_mono total (Nat.le_add_right _ _), Nat.le_refl _⟩
      · intro e he
        simp only [List.getLast?_cons_cons, List.getLast?_singleton,
          Option.some.injEq] at he
        subst he
        rfl
  case isFalse hc =>
    simp only [Except.ok.injEq] at h
    subst h
    have hz : r.size = 0 := by
      rw [← hbb]
      simp [emittedContent, hc]
    refine ⟨?_, by simp⟩
    rw [hz, Nat.add_zero]
    refine ⟨List.chain'_singleton _, ?_, ?_⟩
    · intro e he
      rw [List.mem_singleton] at he
      subst he
      exact ⟨Nat.le_refl _, Nat.le_refl _⟩
    · intro e he
      simp only [List.getLast?_singleton, Option.some.injEq] at he
      subst he
      rfl

lemma processEntry_events {total ofs ps : Nat} {r : FileRecord} {er : EntryResult}
    (hwf : WFRecord r) (h : processEntry total ofs ps r = .ok er) :
    EventsOk total ps (ps + r.size) er.events ∧ er.events ≠ [] ∧
    er.processedSize = ps + r.size := by
  have hps := (processEntry_ok_spec h).2.2.2.2.1
  have hcv := (processEntry_ok_spec h).2.2.2.2.2
  have hwf2 : WFRecord er.record := WFRecord_of_coreView hcv hwf
  have hsz : er.record.size = r.size := (coreView_fields hcv).2.2.2.1
  unfold processEntry at h
  split at h
  next msg heq => cases h
  next r1 heq =>
    dsimp only at h
    split at h
    next msg evs hemit => cases h
    next em hemit =>
      simp only [Except.ok.injEq] at h
      subst h
      have hwfr2 : WFRecord { r1 with localHeaderOffset := (ofs : Int) } := by
        simpa using hwf2
      obtain ⟨he1, he2⟩ := emitContent_events hwfr2 hemit
      have hs2 : ({ r1 with localHeaderOffset := (ofs : Int) } : FileRecord).size = r.size := by
        simpa using hsz
      rw [hs2] at he1
      refine ⟨by simpa using he1, by simpa using he2, ?_⟩
      rw [hps, blockBytes_emittedContent hwf2, hsz]

/-- Progress events over a successful run of the entry loop: they extend
the already accumulated events by a block that satisfies the EventsOk
invariant between the old and the new processed byte count, the
processed byte count grows by exactly the sum of the entry sizes, and
at least one event is reported per entry. -/
lemma generateEntries_events_spec (total : Nat) :
    ∀ (files : List FileRecord) (st st' : LoopState),
      (∀ r ∈ files, WFRecord r) →
      generateEntries total st files = .ok st' →
      ∃ evs, st'.events = st.events ++ evs ∧
        st'.processedSize = st.processedSize + (files.map (fun r => r.size)).sum ∧
        EventsOk total st.processedSize st'.processedSize evs ∧
        (files ≠ [] → evs ≠ [])
  | [], st, st', hwf, h => by
      simp only [generateEntries] at h
      simp only [Except.ok.injEq] at h
      subst h
      exact ⟨[], by simp, by simp, EventsOk_nil total st.processedSize, by simp⟩
  | r :: rs, st, st', hwf, h => by
      simp only [generateEntries] at h
      split at h
      next f hp => cases h
      next er hp =>
        have hwfr : WFRecord r := hwf r (List.mem_cons_self r rs)
        obtain ⟨pe1, pe2, pe3⟩ := processEntry_events hwfr hp
        obtain ⟨evs, h1, h2, h3, h4⟩ := generateEntries_events_spec total rs _ st'
          (fun x hx => hwf x (List.mem_cons_of_mem r hx)) h
        refine ⟨er.events ++ evs, ?_, ?_, ?_, ?_⟩
        · rw [h1]
          simp
        · rw [h2]
          simp only [pe3, List.map_cons, List.sum_cons]
          omega
        · rw [pe3] at h2 h3
          dsimp only at h2 h3
          refine EventsOk.append (Nat.le_add_right _ _) ?_ pe1 h3 ?_
          · rw [h2]
            omega
          · intro hnil
            rcases heq : rs with _ | ⟨x, xs⟩
            · rw [heq] at h2
              simp at h2
              omega
            · exact absurd hnil (h4 (by rw [heq]; simp))
        · intro hne
          simp [pe2]

/-! ## Top-level characterizations of generateZipStream -/

lemma generateZipStream_ok_char {files : List FileRecord} {clear : Bool} {st : LoopState}
    (hg : generateEntries ((files.map (fun r => r.size)).sum) ⟨[], [], [], [], 0, 0⟩ files
      = .ok st) :
    generateZipStream files clear
      = ⟨st.chunks ++ st.cdEntries
           ++ createEndRecords st.currentOffset (blockBytes st.cdEntries) files.length,
         st.events, none, if clear then [] else st.doneRecords⟩ := by
  unfold generateZipStream
  dsimp only
  rw [hg]
  rfl

lemma generateZipStream_error_char {files : List FileRecord} {clear : Bool} {f : GenFail}
    (hg : generateEntries ((files.map (fun r => r.size)).sum) ⟨[], [], [], [], 0, 0⟩ files
      = .error f) :
    generateZipStream files clear = ⟨f.chunks, f.events, some f.msg, f.filesAfter⟩ := by
  unfold generateZipStream
  dsimp only
  rw [hg]

/-- Shared consequence of a successful generation: the full layout of
the emitted chunk sequence and the offsets assigned to the records. -/
lemma generateZipStream_ok_layout {files : List FileRecord}
    (hok : (generateZipStream files false).error = none) :
    ∃ recs : List FileRecord,
      (generateZipStream files false).filesAfter = recs ∧
      recs.length = files.length ∧
      recs.map coreView = files.map coreView ∧
      (generateZipStream files false).chunks
        = recs.flatMap entryBlock ++ recs.map createCentralDirectoryHeader
            ++ createEndRecords (blockBytes (recs.flatMap entryBlock))
                 (blockBytes (recs.map createCentralDirectoryHeader)) files.length ∧
      ∀ i (hi : i < recs.length),
        (recs.get ⟨i, hi⟩).localHeaderOffset
          = ((blockBytes ((recs.take i).flatMap entryBlock) : Nat) : Int) := by
  cases hg : generateEntries ((files.map (fun r => r.size)).sum) ⟨[], [], [], [], 0, 0⟩ files with
  | error f =>
      rw [generateZipStream_error_char hg] at hok
      cases hok
  | ok st =>
      rw [generateZipStream_ok_char hg] at hok ⊢
      obtain ⟨recs, h1, h2, h3, h4, h5, h6, h7⟩ := generateEntries_ok_spec _ files _ st hg
      dsimp only at h1 h2 h3 h4
      simp only [List.nil_append, Nat.zero_add] at h1 h2 h3 h4
      refine ⟨recs, ?_, h5, h6, ?_, ?_⟩
      · simpa using h1
      · dsimp only
        rw [h2, h3, h4]
      · intro i hi
        have := h7 i hi
        dsimp only at this
        simpa using this

/-! ## Sample registries used to instantiate the theorems on concrete inputs -/

/-- A registry with one in-memory one-byte file. -/
def sampleReg : List FileRecord := addFile [] "a.txt" (.bytesArg [97]) 0 0

/-- A record whose size is exactly 4 GiB (0x100000000). -/
def sampleBig : FileRecord :=
  { name := "a", encodedName := [97], content := .blob [] true, crc32 := some 0,
    size := 4294967296, isDirectory := false, dosTime := 0, dosDate := 0,
    localHeaderOffset := -1 }

/-- A record whose size is 0xFFFFFFFE. -/
def sampleAlmostBig : FileRecord :=
  { name := "a", encodedName := [97], content := .blob [] true, crc32 := some 0,
    size := 4294967294, isDirectory := false, dosTime := 0, dosDate := 0,
    localHeaderOffset := -1 }

/-! ## Claim C1 -/

/-- The layout property of claim C1, as a predicate of the registry. -/
def StreamLayoutSpec (files : List FileRecord) : Prop :=
  ∃ recs : List FileRecord,
    (generateZipStream files false).filesAfter = recs ∧
    recs.length = files.length ∧
    (generateZipStream files false).chunks
      = recs.flatMap entryBlock ++ recs.map createCentralDirectoryHeader
          ++ createEndRecords (blockBytes (recs.flatMap entryBlock))
               (blockBytes (recs.map createCentralDirectoryHeader)) files.length ∧
    ∀ i (hi : i < recs.length),
      (recs.get ⟨i, hi⟩).localHeaderOffset
        = ((((recs.take i).flatMap entryBlock).flatten.length : Nat) : Int)

/-- Claim C1: on a successful generation the emitted chunk sequence is,
in exact registration order, each entry local header immediately
followed by that entry content, then all central directory records
contiguously, then the end records; and each record localHeaderOffset
equals the exact byte index at which its local header starts in the
concatenation of all emitted chunks.  The offsets are exact natural
numbers (the BigInt cursor), not values reduced modulo 2^32. -/
theorem c1_stream_layout (files : List FileRecord)
    (hok : (generateZipStream files false).error = none) :
    StreamLayoutSpec files := by
  obtain ⟨recs, h1, h2, h3, h4, h5⟩ := generateZipStream_ok_layout hok
  refine ⟨recs, h1, h2, h4, ?_⟩
  intro i hi
  rw [h5 i hi, blockBytes_eq_length_join]

/-- Witness for claim C1 at a concrete one-file registry. -/
theorem c1_stream_layout_witness : StreamLayoutSpec sampleReg :=
  c1_stream_layout sampleReg (by decide)

/-! ## Claim C4 -/

set_option maxRecDepth 8000
set_option maxHeartbeats 2000000

/-- Claim C4: computeCRC32 is the table-driven reflected CRC-32 with
polynomial 0xEDB88320 over a 256-entry table, seeded at 0xFFFFFFFF and
finished with a final XOR against 0xFFFFFFFF; it maps "a" to
0xE8B7BE43, "123456789" to 0xCBF43926 and the empty input to 0. -/
theorem c4_crc32 :
    createCRC32Table.length = 256 ∧
    createCRC32Table.getD 1 0 = 0x77073096 ∧
    createCRC32Table.getD 255 0 = 0x2D02EF8D ∧
    computeCRC32 (utf8Encode "a") = 0xE8B7BE43 ∧
    computeCRC32 (utf8Encode "123456789") = 0xCBF43926 ∧
    computeCRC32 [] = 0 := by
  refine ⟨by decide, by decide, by decide, by decide, by decide, by decide⟩

/-! ## Claim C10 -/

/-- Claim C10: with an empty registry, generateZipStream emits exactly
one chunk, the standard 22-byte end-of-central-directory record with
signature 0x06054B50, zero entry counts, zero directory size and zero
offset, with no ZIP64 records, and the progress callback is never
invoked. -/
theorem c10_empty_registry (clearAfterGenerate : Bool) :
    (generateZipStream [] clearAfterGenerate).chunks.length = 1 ∧
    ((generateZipStream [] clearAfterGenerate).chunks.getD 0 []).length = 22 ∧
    readU32 ((generateZipStream [] clearAfterGenerate).chunks.getD 0 []) 0 = 0x06054B50 ∧
    readU16 ((generateZipStream [] clearAfterGenerate).chunks.getD 0 []) 8 = 0 ∧
    readU16 ((generateZipStream [] clearAfterGenerate).chunks.getD 0 []) 10 = 0 ∧
    readU32 ((generateZipStream [] clearAfterGenerate).chunks.getD 0 []) 12 = 0 ∧
    readU32 ((generateZipStream [] clearAfterGenerate).chunks.getD 0 []) 16 = 0 ∧
    (generateZipStream [] clearAfterGenerate).chunks = createEndRecords 0 0 0 ∧
    (generateZipStream [] clearAfterGenerate).events = [] ∧
    (generateZipStream [] clearAfterGenerate).error = none := by
  cases clearAfterGenerate <;> exact (by decide)

/-! ## Decoding lemmas and explicit forms of the record writers -/

lemma readU16_eq (l : List Nat) (i : Nat) : readU16 l i = decodeLE ((l.drop i).take 2) := rfl

lemma readU32_eq (l : List Nat) (i : Nat) : readU32 l i = decodeLE ((l.drop i).take 4) := rfl

lemma readU64_eq (l : List Nat) (i : Nat) : readU64 l i = decodeLE ((l.drop i).take 8) := rfl

lemma decodeLE_u16Bytes (v : Nat) : decodeLE (u16Bytes v) = v % 65536 := by
  show v % 256 + 256 * (v / 256 % 256 + 256 * 0) = v % 65536
  omega

lemma decodeLE_u32Bytes (v : Nat) : decodeLE (u32Bytes v) = v % 4294967296 := by
  show v % 256 + 256 * (v / 256 % 256 + 256 * (v / 65536 % 256
      + 256 * (v / 16777216 % 256 + 256 * 0))) = v % 4294967296
  omega

lemma decodeLE_u64Bytes (v : Nat) : decodeLE (u64Bytes v) = v % 18446744073709551616 := by
  show v % 256 + 256 * (v / 256 % 256 + 256 * (v / 65536 % 256 + 256 * (v / 16777216 % 256
      + 256 * (v / 4294967296 % 256 + 256 * (v / 1099511627776 % 256
      + 256 * (v / 281474976710656 % 256 + 256 * (v / 72057594037927936 % 256 + 256 * 0)))))))
      = v % 18446744073709551616
  omega

/-- Explicit form of the local file header when the size reaches the
ZIP64 threshold. -/
lemma localHeader_char_pos (r : FileRecord) (hz : 0xFFFFFFFF ≤ r.size) :
    createLocalFileHeader r
      = u32Bytes 0x04034B50 ++ (u16Bytes 45 ++ (u16Bytes 0x0800 ++ (u16Bytes 0
        ++ (u16Bytes r.dosTime ++ (u16Bytes r.dosDate ++ (u32Bytes (r.crc32.getD 0)
        ++ (u32Bytes 0xFFFFFFFF ++ (u32Bytes 0xFFFFFFFF ++ (u16Bytes r.encodedName.length
        ++ (u16Bytes 20 ++ (r.encodedName
        ++ (u16Bytes 1 ++ (u16Bytes 16 ++ (u64Bytes r.size ++ u64Bytes r.size)))))))))))))) := by
  simp [createLocalFileHeader, hz]

/-- Explicit form of the local file header below the ZIP64 threshold. -/
lemma localHeader_char_neg (r : FileRecord) (hz : ¬ 0xFFFFFFFF ≤ r.size) :
    createLocalFileHeader r
      = u32Bytes 0x04034B50 ++ (u16Bytes 20 ++ (u16Bytes 0x0800 ++ (u16Bytes 0
        ++ (u16Bytes r.dosTime ++ (u16Bytes r.dosDate ++ (u32Bytes (r.crc32.getD 0)
        ++ (u32Bytes r.size ++ (u32Bytes r.size ++ (u16Bytes r.encodedName.length
        ++ (u16Bytes 0 ++ r.encodedName)))))))))) := by
  simp [createLocalFileHeader, hz]

/-! ## Claim C3 -/

/-- Claim C3 (counterexample): the ZIP64 local extra field occupies 20
bytes (2-byte id, 2-byte data length, 16 data bytes), not 28, so for a
one-byte name and size 2^32 the local header is 30 + 1 + 20 = 51 bytes
long and not 30 + 1 + 28 = 59. -/
theorem c3_counterexample :
    (createLocalFileHeader sampleBig).length = 51 ∧
    ¬ (createLocalFileHeader sampleBig).length = 59 := by
  exact ⟨by decide, by decide⟩

set_option maxHeartbeats 1000000 in
/-- Claim C3 (amended: the appended ZIP64 extra field is 20 bytes, not
28): createLocalFileHeader emits the 30-byte fixed header with
signature 0x04034B50, version-needed 45 when the size reaches
0xFFFFFFFF and 20 otherwise, general purpose flag exactly 0x0800,
method 0, equal compressed and uncompressed size fields, followed by
the name; it appends the 20-byte ZIP64 extra field (id 0x0001, data
length 16, the 8-byte uncompressed then the 8-byte compressed size,
equal, little-endian, with the 32-bit size fields at 0xFFFFFFFF)
exactly when the size is at least 0xFFFFFFFF, so size 0x100000000
triggers the extra field and 0xFFFFFFFE does not; otherwise the
extra-field length is 0. -/
theorem c3_local_header (r : FileRecord) :
    readU32 (createLocalFileHeader r) 0 = 0x04034B50 ∧
    readU16 (createLocalFileHeader r) 4 = (if 0xFFFFFFFF ≤ r.size then 45 else 20) ∧
    readU16 (createLocalFileHeader r) 6 = 0x0800 ∧
    readU16 (createLocalFileHeader r) 8 = 0 ∧
    readU32 (createLocalFileHeader r) 18 = readU32 (createLocalFileHeader r) 22 ∧
    ((createLocalFileHeader r).drop 30).take r.encodedName.length = r.encodedName ∧
    (createLocalFileHeader r).length
      = 30 + r.encodedName.length + (if 0xFFFFFFFF ≤ r.size then 20 else 0) ∧
    (0xFFFFFFFF ≤ r.size →
      readU16 (createLocalFileHeader r) 28 = 20 ∧
      readU32 (createLocalFileHeader r) 18 = 0xFFFFFFFF ∧
      (createLocalFileHeader r).drop (r.encodedName.length + 30)
        = u16Bytes 1 ++ u16Bytes 16 ++ u64Bytes r.size ++ u64Bytes r.size) ∧
    (¬ 0xFFFFFFFF ≤ r.size →
      readU16 (createLocalFileHeader r) 28 = 0 ∧
      readU32 (createLocalFileHeader r) 18 = r.size ∧
      (createLocalFileHeader r).drop (r.encodedName.length + 30) = []) ∧
    readU16 (createLocalFileHeader sampleBig) 28 = 20 ∧
    readU16 (createLocalFileHeader sampleAlmostBig) 28 = 0 := by
  by_cases hz : 0xFFFFFFFF ≤ r.size
  · have hs4 : ((createLocalFileHeader r).drop 0).take 4 = u32Bytes 0x04034B50 := by
      rw [localHeader_char_pos r hz]
      rfl
    have hver : ((createLocalFileHeader r).drop 4).take 2 = u16Bytes 45 := by
      rw [localHeader_char_pos r hz]
      rfl
    have hflag : ((createLocalFileHeader r).drop 6).take 2 = u16Bytes 0x0800 := by
      rw [localHeader_char_pos r hz]
      rfl
    have hmeth : ((createLocalFileHeader r).drop 8).take 2 = u16Bytes 0 := by
      rw [localHeader_char_pos r hz]
      rfl
    have hsz : ((createLocalFileHeader r).drop 18).take 4 = u32Bytes 0xFFFFFFFF := by
      rw [localHeader_char_pos r hz]
      rfl
    have hsz2 : ((createLocalFileHeader r).drop 22).take 4 = u32Bytes 0xFFFFFFFF := by
      rw [localHeader_char_pos r hz]
      rfl
    have hext : ((createLocalFileHeader r).drop 28).take 2 = u16Bytes 20 := by
      rw [localHeader_char_pos r hz]
      rfl
    refine ⟨?_, ?_, ?_, ?_, ?_, ?_, ?_, ?_, ?_, by decide, by decide⟩
    · rw [readU32_eq, hs4, decodeLE_u32Bytes]
    · rw [readU16_eq, hver, decodeLE_u16Bytes, if_pos hz]
    · rw [readU16_eq, hflag, decodeLE_u16Bytes]
    · rw [readU16_eq, hmeth, decodeLE_u16Bytes]
    · rw [readU32_eq, readU32_eq, hsz, hsz2]
    · rw [localHeader_char_pos r hz]
      show List.take r.encodedName.length
        (r.encodedName ++ (u16Bytes 1 ++ (u16Bytes 16 ++ (u64Bytes r.size ++ u64Bytes r.size))))
        = r.encodedName
      exact List.take_left r.encodedName _
    · rw [localHeader_char_pos r hz, if_pos hz]
      simp only [List.length_append, u16Bytes_length, u32Bytes_length, u64Bytes_length]
      omega
    · intro _
      refine ⟨?_, ?_, ?_⟩
      · rw [readU16_eq, hext, decodeLE_u16Bytes]
      · rw [readU32_eq, hsz, decodeLE_u32Bytes]
      · rw [localHeader_char_pos r hz]
        show List.drop r.encodedName.length
          (r.encodedName ++ (u16Bytes 1 ++ (u16Bytes 16 ++ (u64Bytes r.size ++ u64Bytes r.size))))
          = u16Bytes 1 ++ u16Bytes 16 ++ u64Bytes r.size ++ u64Bytes r.size
        rw [List.drop_left]
        simp [List.append_assoc]
    · intro h
      exact absurd hz h
  · have hs4 : ((createLocalFileHeader r).drop 0).take 4 = u32Bytes 0x04034B50 := by
      rw [localHeader_char_neg r hz]
      rfl
    have hver : ((createLocalFileHeader r).drop 4).take 2 = u16Bytes 20 := by
      rw [localHeader_char_neg r hz]
      rfl
    have hflag : ((createLocalFileHeader r).drop 6).take 2 = u16Bytes 0x0800 := by
      rw [localHeader_char_neg r hz]
      rfl
    have hmeth : ((createLocalFileHeader r).drop 8).take 2 = u16Bytes 0 := by
      rw [localHeader_char_neg r hz]
      rfl
    have hsz : ((createLocalFileHeader r).drop 18).take 4 = u32Bytes r.size := by
      rw [localHeader_char_neg r hz]
      rfl
    have hsz2 : ((createLocalFileHeader r).drop 22).take 4 = u32Bytes r.size := by
      rw [localHeader_char_neg r hz]
      rfl
    have hext : ((createLocalFileHeader r).drop 28).take 2 = u16Bytes 0 := by
      rw [localHeader_char_neg r hz]
      rfl
    refine ⟨?_, ?_, ?_, ?_, ?_, ?_, ?_, ?_, ?_, by decide, by decide⟩
    · rw [readU32_eq, hs4, decodeLE_u32Bytes]
    · rw [readU16_eq, hver, decodeLE_u16Bytes, if_neg hz]
    · rw [readU16_eq, hflag, decodeLE_u16Bytes]
    · rw [readU16_eq, hmeth, decodeLE_u16Bytes]
    · rw [readU32_eq, readU32_eq, hsz, hsz2]
    · rw [localHeader_char_neg r hz]
      show List.take r.encodedName.length r.encodedName = r.encodedName
      exact List.take_length _
    · rw [localHeader_char_neg r hz, if_neg hz]
      simp only [List.length_append, u16Bytes_length, u32Bytes_length]
      omega
    · intro h
      exact absurd h hz
    · intro _
      refine ⟨?_, ?_, ?_⟩
      · rw [readU16_eq, hext, decodeLE_u16Bytes]
      · rw [readU32_eq, hsz, decodeLE_u32Bytes]
        omega
      · rw [localHeader_char_neg r hz]
        show List.drop r.encodedName.length r.encodedName = []
        exact List.drop_length _

/-- Witness for claim C3 at the two threshold records. -/
theorem c3_local_header_witness :
    (0xFFFFFFFF ≤ sampleBig.size) ∧
    readU16 (createLocalFileHeader sampleBig) 28 = 20 ∧
    readU32 (createLocalFileHeader sampleBig) 18 = 0xFFFFFFFF ∧
    (¬ 0xFFFFFFFF ≤ sampleAlmostBig.size) ∧
    readU16 (createLocalFileHeader sampleAlmostBig) 28 = 0 :=
  ⟨by decide,
   ((c3_local_header sampleBig).2.2.2.2.2.2.2.1 (by decide)).1,
   ((c3_local_header sampleBig).2.2.2.2.2.2.2.1 (by decide)).2.1,
   by decide,
   ((c3_local_header sampleAlmostBig).2.2.2.2.2.2.2.2.1 (by decide)).1⟩

/-! ## Claim C5 -/

/-- Claim C5 (counterexample): the duplicate check of addFile runs on
the raw argument name, before the trailing slash is stripped; with an
entry named a registered, addFile under the name a followed by a slash
passes the duplicate check, is stripped back to a, and Map.set then
replaces the existing entry, so the second registration wins and the
registry changes. -/
theorem c5_counterexample :
    addFile (addFile [] "a" (.bytesArg [65]) 0 0) "a/" (.bytesArg [66]) 0 0
      ≠ addFile [] "a" (.bytesArg [65]) 0 0 ∧
    (addFile (addFile [] "a" (.bytesArg [65]) 0 0) "a/" (.bytesArg [66]) 0 0).map
      (fun r => r.content) = [.bytes [66]] := by
  exact ⟨by decide, by decide⟩

/-- Claim C5 (amended): a second registration under an already present
literal name is a no-op for both addFile and addFolder (first
registration wins, so registering a.txt twice keeps the first content);
but a file name ending in a path separator is only stripped after the
duplicate check, so an addFile whose argument name ends in a slash can
overwrite an existing entry under the stripped name (in that one case
the last registration wins). -/
theorem c5_duplicate_policy :
    (∀ (files : List FileRecord) (name : String) (content : ContentArg) (dT dD : Nat),
        mapHas files name = true → addFile files name content dT dD = files) ∧
    (∀ (files : List FileRecord) (name : String) (dT dD : Nat),
        mapHas files (if endsWithSlash name then name else appendSlash name) = true →
        addFolder files name dT dD = files) ∧
    (∀ (c1 c2 : List Nat) (dT dD : Nat),
        addFile (addFile [] "a.txt" (.bytesArg c1) dT dD) "a.txt" (.bytesArg c2) dT dD
          = addFile [] "a.txt" (.bytesArg c1) dT dD ∧
        (addFile (addFile [] "a.txt" (.bytesArg c1) dT dD) "a.txt" (.bytesArg c2) dT dD).map
          (fun r => r.content) = [.bytes c1]) := by
  refine ⟨?_, ?_, ?_⟩
  · intro files name content dT dD h
    unfold addFile
    rw [h]
    rfl
  · intro files name dT dD h
    unfold addFolder
    dsimp only
    rw [h]
    rfl
  · intro c1 c2 dT dD
    have h1 : endsWithSlash "a.txt" = false := by decide
    have h2 : mapHas ([] : List FileRecord) "a.txt" = false := by decide
    have h3 : addFile [] "a.txt" (.bytesArg c1) dT dD
        = [{ name := "a.txt", encodedName := utf8Encode "a.txt", content := .bytes c1,
             crc32 := some (computeCRC32 c1), size := c1.length, isDirectory := false,
             dosTime := dT, dosDate := dD, localHeaderOffset := -1 }] := by
      unfold addFile
      rw [h2, h1]
      rfl
    have h4 : mapHas
        ([{ name := "a.txt", encodedName := utf8Encode "a.txt",
            content := Content.bytes c1, crc32 := some (computeCRC32 c1),
            size := c1.length, isDirectory := false, dosTime := dT, dosDate := dD,
            localHeaderOffset := -1 }] : List FileRecord) "a.txt" = true := by
      simp [mapHas]
    constructor
    · rw [h3]
      unfold addFile
      rw [h4]
      rfl
    · rw [h3]
      unfold addFile
      rw [h4]
      rfl

/-- Witness for claim C5: a literal duplicate registration is a no-op. -/
theorem c5_duplicate_policy_witness :
    addFile sampleReg "a.txt" (.bytesArg [66]) 0 0 = sampleReg :=
  c5_duplicate_policy.1 sampleReg "a.txt" (.bytesArg [66]) 0 0 (by decide)

/-! ## Claim C6 -/

/-- Claim C6 (counterexample): a generation that fails on its second
entry (a Blob whose read fails) aborts with an error and does not clear
the registry, but it has already mutated the first record, whose
localHeaderOffset changed from -1 to 0 — so the registry is not left
exactly as it was before the call. -/
theorem c6_counterexample :
    (generateZipStream
        (addFile (addFile [] "a" (.bytesArg [65]) 0 0) "b" (.blobArg [[66]] false) 0 0)
        true).error ≠ none ∧
    (generateZipStream
        (addFile (addFile [] "a" (.bytesArg [65]) 0 0) "b" (.blobArg [[66]] false) 0 0)
        true).filesAfter
      ≠ addFile (addFile [] "a" (.bytesArg [65]) 0 0) "b" (.blobArg [[66]] false) 0 0 ∧
    ((generateZipStream
        (addFile (addFile [] "a" (.bytesArg [65]) 0 0) "b" (.blobArg [[66]] false) 0 0)
        true).filesAfter.map (fun r => r.localHeaderOffset)) = [0, -1] := by
  exact ⟨by decide, by decide, by decide⟩

/-- The registry preservation property of claim C6 as a predicate. -/
def RegistrySpec (files : List FileRecord) (clear : Bool) : Prop :=
    ((generateZipStream files clear).error = none → clear = true →
        (generateZipStream files clear).filesAfter = []) ∧
    ((generateZipStream files clear).error = none → clear = false →
        (generateZipStream files clear).filesAfter.map coreView = files.map coreView) ∧
    ((generateZipStream files clear).error ≠ none →
        (generateZipStream files clear).filesAfter.map coreView = files.map coreView ∧
        (generateZipStream files clear).filesAfter.length = files.length)

/-- Claim C6 (amended): the registry is emptied only when
clearAfterGenerate is set and every generation step succeeded; if any
step raises an error the generation aborts and the registry keeps
exactly the same entries in the same order — same names, encoded names,
contents, sizes, directory flags and timestamps — so the caller may
retry; only the crc32 cache and the scratch localHeaderOffset field of
entries already processed before the failure may differ from their
pre-call values. -/
theorem c6_registry (files : List FileRecord) (clear : Bool) : RegistrySpec files clear := by
  unfold RegistrySpec
  cases hg : generateEntries ((files.map (fun r => r.size)).sum) ⟨[], [], [], [], 0, 0⟩ files with
  | error f =>
      rw [generateZipStream_error_char hg]
      refine ⟨?_, ?_, ?_⟩
      · intro h
        cases h
      · intro h
        cases h
      · intro _
        have h1 := generateEntries_error_spec _ files _ f hg
        simp only [List.map_nil, List.nil_append] at h1
        refine ⟨h1, ?_⟩
        have := congrArg List.length h1
        simpa using this
  | ok st =>
      rw [generateZipStream_ok_char hg]
      obtain ⟨recs, h1, h2, h3, h4, h5, h6, h7⟩ := generateEntries_ok_spec _ files _ st hg
      dsimp only at h1
      simp only [List.nil_append] at h1
      refine ⟨?_, ?_, ?_⟩
      · intro _ hc
        simp [hc]
      · intro _ hc
        simp only [hc]
        simp [h1, h6]
      · intro h
        exact absurd rfl h

/-- Witness for claim C6 at a concrete one-file registry. -/
theorem c6_registry_witness : RegistrySpec sampleReg true :=
  c6_registry sampleReg true

/-! ## Claim C7 -/

/-- The progress property of claim C7 as a predicate of the registry
and the clear flag. -/
def ProgressSpec (files : List FileRecord) (clear : Bool) : Prop :=
    List.Chain' (fun a b => a.overallProgressPercent ≤ b.overallProgressPercent)
      (generateZipStream files clear).events ∧
    (∀ e ∈ (generateZipStream files clear).events, e.overallProgressPercent ≤ 100) ∧
    ((files.map (fun r => r.size)).sum = 0 →
      ∀ e ∈ (generateZipStream files clear).events, e.overallProgressPercent = 100) ∧
    (files ≠ [] →
      ∃ e, (generateZipStream files clear).events.getLast? = some e ∧
        e.overallProgressPercent = 100)

/-- Claim C7: during one successful generation the progress percentages
passed to the callback form a non-decreasing sequence of natural
numbers bounded by 100 (computed against the sum of all known entry
sizes and clamped); the last reported value is 100 for any non-empty
registry, and every reported value is 100 whenever the total size is
zero. -/
theorem c7_progress (files : List FileRecord) (clear : Bool)
    (hwf : ∀ r ∈ files, WFRecord r)
    (hok : (generateZipStream files clear).error = none) :
    ProgressSpec files clear := by
  unfold ProgressSpec
  cases hg : generateEntries ((files.map (fun r => r.size)).sum) ⟨[], [], [], [], 0, 0⟩ files with
  | error f =>
      rw [generateZipStream_error_char hg] at hok
      cases hok
  | ok st =>
      rw [generateZipStream_ok_char hg]
      obtain ⟨evs, h1, h2, h3, h4⟩ := generateEntries_events_spec _ files _ st hwf hg
      dsimp only at h1 h2
      simp only [List.nil_append, Nat.zero_add] at h1 h2
      obtain ⟨hchain, hbound, hlast⟩ := h3
      dsimp only at hchain hbound hlast
      refine ⟨?_, ?_, ?_, ?_⟩
      · dsimp only
        rw [h1]
        exact hchain
      · intro e he
        dsimp only at he
        rw [h1] at he
        exact ((hbound e he).2).trans (overallPercent_le_100 _ _)
      · intro h0 e he
        dsimp only at he
        rw [h1] at he
        obtain ⟨hlo, hhi⟩ := hbound e he
        rw [h0] at hlo hhi
        have hlo2 : (100 : Nat) ≤ e.overallProgressPercent := by
          simpa [overallPercent] using hlo
        have hhi2 : e.overallProgressPercent ≤ 100 := by
          simpa [overallPercent] using hhi
        omega
      · intro hne
        have hevs : evs ≠ [] := h4 hne
        obtain ⟨e, he⟩ := List.exists_mem_of_ne_nil evs hevs
        rcases hl : evs.getLast? with _ | e0
        · rw [List.getLast?_eq_none_iff] at hl
          exact absurd hl hevs
        · refine ⟨e0, ?_, ?_⟩
          · dsimp only
            rw [h1]
            exact hl
          · have := hlast e0 hl
            rw [this, h2]
            exact overallPercent_self _

/-- Witness for claim C7 at a concrete one-file registry. -/
theorem c7_progress_witness : ProgressSpec sampleReg false :=
  c7_progress sampleReg false (by decide) (by decide)

/-! ## Claim C8 -/

/-- Claim C8 (counterexample): for an entry of size 0 whose local
header sits at offset 0xFFFFFFFF, the local header carries
version-needed 20 while the central directory record carries
version-made-by and version-needed 45: the central directory versions
do not mirror the local header ZIP64 choice once the offset reaches the
threshold. -/
theorem c8_counterexample :
    readU16 (createLocalFileHeader
      { name := "a", encodedName := [97], content := .bytes [], crc32 := some 0,
        size := 0, isDirectory := false, dosTime := 0, dosDate := 0,
        localHeaderOffset := 0xFFFFFFFF }) 4 = 20 ∧
    readU16 (createCentralDirectoryHeader
      { name := "a", encodedName := [97], content := .bytes [], crc32 := some 0,
        size := 0, isDirectory := false, dosTime := 0, dosDate := 0,
        localHeaderOffset := 0xFFFFFFFF }) 4 = 45 ∧
    readU16 (createCentralDirectoryHeader
      { name := "a", encodedName := [97], content := .bytes [], crc32 := some 0,
        size := 0, isDirectory := false, dosTime := 0, dosDate := 0,
        localHeaderOffset := 0xFFFFFFFF }) 6 = 45 := by
  exact ⟨by decide, by decide, by decide⟩

/-- Claim C8 (amended): version-made-by and version-needed of the
central directory record are always equal, and they are 45 exactly when
the entry size or the local header offset reaches the 0xFFFFFFFF
threshold, 20 otherwise; they mirror the local header version exactly
when the offset is below the threshold, and exceed it (45 against 20)
when only the offset overflows. -/
theorem c8_versions (r : FileRecord) :
    readU16 (createCentralDirectoryHeader r) 4 = readU16 (createCentralDirectoryHeader r) 6 ∧
    readU16 (createCentralDirectoryHeader r) 6
      = (if 0xFFFFFFFF ≤ r.size ∨ (0xFFFFFFFF : Int) ≤ r.localHeaderOffset then 45 else 20) ∧
    (r.localHeaderOffset < (0xFFFFFFFF : Int) →
      readU16 (createCentralDirectoryHeader r) 6 = readU16 (createLocalFileHeader r) 4) := by
  by_cases hso : 0xFFFFFFFF ≤ r.size ∨ (0xFFFFFFFF : Int) ≤ r.localHeaderOffset
  · have h4 : ((createCentralDirectoryHeader r).drop 4).take 2 = u16Bytes 45 := by
      simp only [createCentralDirectoryHeader, if_pos hso]
      rfl
    have h6 : ((createCentralDirectoryHeader r).drop 6).take 2 = u16Bytes 45 := by
      simp only [createCentralDirectoryHeader, if_pos hso]
      rfl
    refine ⟨?_, ?_, ?_⟩
    · rw [readU16_eq, readU16_eq, h4, h6]
    · rw [readU16_eq, h6, decodeLE_u16Bytes, if_pos hso]
    · intro hofs
      have hs : 0xFFFFFFFF ≤ r.size := by
        rcases hso with h | h
        · exact h
        · exact absurd h (not_le.mpr hofs)
      have hl : ((createLocalFileHeader r).drop 4).take 2 = u16Bytes 45 := by
        rw [localHeader_char_pos r hs]
        rfl
      rw [readU16_eq, readU16_eq, h6, hl]
  · have h4 : ((createCentralDirectoryHeader r).drop 4).take 2 = u16Bytes 20 := by
      simp only [createCentralDirectoryHeader, if_neg hso]
      rfl
    have h6 : ((createCentralDirectoryHeader r).drop 6).take 2 = u16Bytes 20 := by
      simp only [createCentralDirectoryHeader, if_neg hso]
      rfl
    refine ⟨?_, ?_, ?_⟩
    · rw [readU16_eq, readU16_eq, h4, h6]
    · rw [readU16_eq, h6, decodeLE_u16Bytes, if_neg hso]
    · intro hofs
      have hs : ¬ 0xFFFFFFFF ≤ r.size := fun h => hso (Or.inl h)
      have hl : ((createLocalFileHeader r).drop 4).take 2 = u16Bytes 20 := by
        rw [localHeader_char_neg r hs]
        rfl
      rw [readU16_eq, readU16_eq, h6, hl]

/-- Witness for claim C8 at a record below both thresholds. -/
theorem c8_versions_witness :
    readU16 (createCentralDirectoryHeader sampleAlmostBig) 6
      = readU16 (createLocalFileHeader sampleAlmostBig) 4 :=
  (c8_versions sampleAlmostBig).2.2 (by decide)

/-! ## Claim C2 -/

/-- The 56-byte ZIP64 end-of-central-directory record as the spec
describes it. -/
def zip64EndExpl (centralDirectoryOffset centralDirectorySize totalEntries : Nat) : List Nat :=
  u32Bytes 0x06064B50 ++ (u64Bytes 44 ++ (u16Bytes 0x002D ++ (u16Bytes 0x002D
    ++ (u32Bytes 0 ++ (u32Bytes 0 ++ (u64Bytes totalEntries ++ (u64Bytes totalEntries
    ++ (u64Bytes centralDirectorySize ++ u64Bytes centralDirectoryOffset))))))))

/-- The 20-byte ZIP64 end-of-central-directory locator as the spec
describes it. -/
def zip64LocatorExpl (centralDirectoryOffset centralDirectorySize : Nat) : List Nat :=
  u32Bytes 0x07064B50 ++ (u32Bytes 0
    ++ (u64Bytes (centralDirectoryOffset + centralDirectorySize) ++ u32Bytes 1))

/-- The standard 22-byte end-of-central-directory record with its
overflowed fields at the sentinel maxima. -/
def eocdZip64Expl : List Nat :=
  u32Bytes 0x06054B50 ++ (u16Bytes 0 ++ (u16Bytes 0 ++ (u16Bytes 0xFFFF ++ (u16Bytes 0xFFFF
    ++ (u32Bytes 0xFFFFFFFF ++ (u32Bytes 0xFFFFFFFF ++ u16Bytes 0))))))

/-- The standard 22-byte end-of-central-directory record carrying the
true counts, size and offset. -/
def eocdPlainExpl (centralDirectoryOffset centralDirectorySize totalEntries : Nat) : List Nat :=
  u32Bytes 0x06054B50 ++ (u16Bytes 0 ++ (u16Bytes 0 ++ (u16Bytes totalEntries
    ++ (u16Bytes totalEntries ++ (u32Bytes centralDirectorySize
    ++ (u32Bytes centralDirectoryOffset ++ u16Bytes 0))))))

lemma endRecords_char_zip64 (ofs csize n : Nat)
    (h : 0xFFFFFFFF ≤ ofs ∨ 0xFFFFFFFF ≤ csize ∨ 0xFFFF ≤ n) :
    createEndRecords ofs csize n
      = [zip64EndExpl ofs csize n, zip64LocatorExpl ofs csize, eocdZip64Expl] := by
  simp [createEndRecords, zip64EndExpl, zip64LocatorExpl, eocdZip64Expl, h]

lemma endRecords_char_plain (ofs csize n : Nat)
    (h : ¬ (0xFFFFFFFF ≤ ofs ∨ 0xFFFFFFFF ≤ csize ∨ 0xFFFF ≤ n)) :
    createEndRecords ofs csize n = [eocdPlainExpl ofs csize n] := by
  simp [createEndRecords, eocdPlainExpl, h]

/-- The pure record-layout property of claim C2. -/
def EndRecordsSpec (ofs csize n : Nat) : Prop :=
  ((0xFFFFFFFF ≤ ofs ∨ 0xFFFFFFFF ≤ csize ∨ 0xFFFF ≤ n) →
    (createEndRecords ofs csize n).length = 3 ∧
    ((createEndRecords ofs csize n).getD 0 []).length = 56 ∧
    readU32 ((createEndRecords ofs csize n).getD 0 []) 0 = 0x06064B50 ∧
    readU64 ((createEndRecords ofs csize n).getD 0 []) 24 = n ∧
    readU64 ((createEndRecords ofs csize n).getD 0 []) 32 = n ∧
    readU64 ((createEndRecords ofs csize n).getD 0 []) 40 = csize ∧
    readU64 ((createEndRecords ofs csize n).getD 0 []) 48 = ofs ∧
    ((createEndRecords ofs csize n).getD 1 []).length = 20 ∧
    readU32 ((createEndRecords ofs csize n).getD 1 []) 0 = 0x07064B50 ∧
    readU64 ((createEndRecords ofs csize n).getD 1 []) 8 = ofs + csize ∧
    ((createEndRecords ofs csize n).getD 2 []).length = 22 ∧
    readU32 ((createEndRecords ofs csize n).getD 2 []) 0 = 0x06054B50 ∧
    readU16 ((createEndRecords ofs csize n).getD 2 []) 8 = 0xFFFF ∧
    readU16 ((createEndRecords ofs csize n).getD 2 []) 10 = 0xFFFF ∧
    readU32 ((createEndRecords ofs csize n).getD 2 []) 12 = 0xFFFFFFFF ∧
    readU32 ((createEndRecords ofs csize n).getD 2 []) 16 = 0xFFFFFFFF) ∧
  (¬ (0xFFFFFFFF ≤ ofs ∨ 0xFFFFFFFF ≤ csize ∨ 0xFFFF ≤ n) →
    (createEndRecords ofs csize n).length = 1 ∧
    ((createEndRecords ofs csize n).getD 0 []).length = 22 ∧
    readU32 ((createEndRecords ofs csize n).getD 0 []) 0 = 0x06054B50 ∧
    readU16 ((createEndRecords ofs csize n).getD 0 []) 8 = n ∧
    readU16 ((createEndRecords ofs csize n).getD 0 []) 10 = n ∧
    readU32 ((createEndRecords ofs csize n).getD 0 []) 12 = csize ∧
    readU32 ((createEndRecords ofs csize n).getD 0 []) 16 = ofs)

/-- Claim C2: createEndRecords returns the triple of ZIP64
end-of-central-directory record (56 bytes, signature 0x06064B50,
carrying the true 64-bit entry counts, directory size and offset),
ZIP64 locator (20 bytes, signature 0x07064B50, carrying offset + size,
the byte position of the ZIP64 record), then the standard 22-byte EOCD
with its overflowed fields at the sentinel maxima, exactly when the
entry count reaches 0xFFFF or the directory size or offset reaches
0xFFFFFFFF (0xFFFF entries force the triple, 0xFFFE do not); otherwise
the standard EOCD alone carries the true values; and on a successful
generation the end records are built with the registered entry count,
which equals both the number of emitted local headers and the number of
emitted central directory records. -/
theorem c2_end_records :
    (∀ ofs csize n : Nat, ofs + csize < 18446744073709551616 →
      n < 18446744073709551616 → EndRecordsSpec ofs csize n) ∧
    (createEndRecords 0 0 0xFFFF).length = 3 ∧
    (createEndRecords 0 0 0xFFFE).length = 1 ∧
    (∀ files : List FileRecord, (generateZipStream files false).error = none →
      ∃ recs : List FileRecord,
        (generateZipStream files false).filesAfter = recs ∧
        recs.length = files.length ∧
        (generateZipStream files false).chunks
          = recs.flatMap entryBlock ++ recs.map createCentralDirectoryHeader
              ++ createEndRecords (blockBytes (recs.flatMap entryBlock))
                   (blockBytes (recs.map createCentralDirectoryHeader)) files.length) := by
  refine ⟨?_, by decide, by decide, ?_⟩
  · intro ofs csize n h64 hn
    unfold EndRecordsSpec
    constructor
    · intro hz
      have hc := endRecords_char_zip64 ofs csize n hz
      have h0 : (createEndRecords ofs csize n).getD 0 [] = zip64EndExpl ofs csize n := by
        rw [hc]; rfl
      have h1 : (createEndRecords ofs csize n).getD 1 [] = zip64LocatorExpl ofs csize := by
        rw [hc]; rfl
      have h2 : (createEndRecords ofs csize n).getD 2 [] = eocdZip64Expl := by
        rw [hc]; rfl
      refine ⟨by rw [hc]; rfl, by rw [h0]; rfl, ?_, ?_, ?_, ?_, ?_, by rw [h1]; rfl, ?_, ?_,
        by rw [h2]; rfl, ?_, ?_, ?_, ?_, ?_⟩
      · rw [readU32_eq, h0]
        rw [show (((zip64EndExpl ofs csize n).drop 0).take 4) = u32Bytes 0x06064B50 from rfl]
        rw [decodeLE_u32Bytes]
      · rw [readU64_eq, h0]
        rw [show (((zip64EndExpl ofs csize n).drop 24).take 8) = u64Bytes n from rfl]
        rw [decodeLE_u64Bytes]
        omega
      · rw [readU64_eq, h0]
        rw [show (((zip64EndExpl ofs csize n).drop 32).take 8) = u64Bytes n from rfl]
        rw [decodeLE_u64Bytes]
        omega
      · rw [readU64_eq, h0]
        rw [show (((zip64EndExpl ofs csize n).drop 40).take 8) = u64Bytes csize from rfl]
        rw [decodeLE_u64Bytes]
        omega
      · rw [readU64_eq, h0]
        rw [show (((zip64EndExpl ofs csize n).drop 48).take 8) = u64Bytes ofs from rfl]
        rw [decodeLE_u64Bytes]
        omega
      · rw [readU32_eq, h1]
        rw [show (((zip64LocatorExpl ofs csize).drop 0).take 4) = u32Bytes 0x07064B50 from rfl]
        rw [decodeLE_u32Bytes]
      · rw [readU64_eq, h1]
        rw [show (((zip64LocatorExpl ofs csize).drop 8).take 8)
            = u64Bytes (ofs + csize) from rfl]
        rw [decodeLE_u64Bytes]
        omega
      · rw [readU32_eq, h2]
        rw [show ((eocdZip64Expl.drop 0).take 4) = u32Bytes 0x06054B50 from rfl]
        rw [decodeLE_u32Bytes]
      · rw [readU16_eq, h2]
        rw [show ((eocdZip64Expl.drop 8).take 2) = u16Bytes 0xFFFF from rfl]
        rw [decodeLE_u16Bytes]
      · rw [readU16_eq, h2]
        rw [show ((eocdZip64Expl.drop 10).take 2) = u16Bytes 0xFFFF from rfl]
        rw [decodeLE_u16Bytes]
      · rw [readU32_eq, h2]
        rw [show ((eocdZip64Expl.drop 12).take 4) = u32Bytes 0xFFFFFFFF from rfl]
        rw [decodeLE_u32Bytes]
      · rw [readU32_eq, h2]
        rw [show ((eocdZip64Expl.drop 16).take 4) = u32Bytes 0xFFFFFFFF from rfl]
        rw [decodeLE_u32Bytes]
    · intro hz
      have hc := endRecords_char_plain ofs csize n hz
      push_neg at hz
      obtain ⟨hzo, hzs, hzn⟩ := hz
      have h0 : (createEndRecords ofs csize n).getD 0 [] = eocdPlainExpl ofs csize n := by
        rw [hc]; rfl
      refine ⟨by rw [hc]; rfl, by rw [h0]; rfl, ?_, ?_, ?_, ?_, ?_⟩
      · rw [readU32_eq, h0]
        rw [show (((eocdPlainExpl ofs csize n).drop 0).take 4) = u32Bytes 0x06054B50 from rfl]
        rw [decodeLE_u32Bytes]
      · rw [readU16_eq, h0]
        rw [show (((eocdPlainExpl ofs csize n).drop 8).take 2) = u16Bytes n from rfl]
        rw [decodeLE_u16Bytes]
        omega
      · rw [readU16_eq, h0]
        rw [show (((eocdPlainExpl ofs csize n).drop 10).take 2) = u16Bytes n from rfl]
        rw [decodeLE_u16Bytes]
        omega
      · rw [readU32_eq, h0]
        rw [show (((eocdPlainExpl ofs csize n).drop 12).take 4) = u32Bytes csize from rfl]
        rw [decodeLE_u32Bytes]
        omega
      · rw [readU32_eq, h0]
        rw [show (((eocdPlainExpl ofs csize n).drop 16).take 4) = u32Bytes ofs from rfl]
        rw [decodeLE_u32Bytes]
        omega
  · intro files hok
    obtain ⟨recs, h1, h2, h3, h4, h5⟩ := generateZipStream_ok_layout hok
    exact ⟨recs, h1, h2, h4⟩

/-- Witness for claim C2: 0xFFFF entries alone force the ZIP64 records. -/
theorem c2_end_records_witness : EndRecordsSpec 0 0 0xFFFF :=
  c2_end_records.1 0 0 0xFFFF (by decide) (by decide)

/-! ## Claim C9 -/

lemma cdh_extAttr_seg (r : FileRecord) :
    ((createCentralDirectoryHeader r).drop 38).take 4
      = u32Bytes (if r.isDirectory then 0x10 * 65536 else 0) := by
  by_cases hs : 0xFFFFFFFF ≤ r.size
  · by_cases ho : (0xFFFFFFFF : Int) ≤ r.localHeaderOffset
    · simp only [createCentralDirectoryHeader, if_pos hs, if_pos ho, if_pos (Or.inl hs)]
      rfl
    · simp only [createCentralDirectoryHeader, if_pos hs, if_neg ho, if_pos (Or.inl hs)]
      rfl
  · by_cases ho : (0xFFFFFFFF : Int) ≤ r.localHeaderOffset
    · simp only [createCentralDirectoryHeader, if_neg hs, if_pos ho, if_pos (Or.inr ho)]
      rfl
    · simp only [createCentralDirectoryHeader, if_neg hs, if_neg ho,
        if_neg (not_or_intro hs ho)]
      rfl

/-- Claim C9: addFolder normalizes the name to end in a slash and, when
the normalized name is fresh, appends exactly one entry with that name,
size 0, CRC-32 0 and empty content, marked as a directory (when the
normalized name is taken it registers nothing); directory entries
contribute no content bytes to the output; and the external-attributes
field at offset 38 of the central directory header is 0x10 shifted into
the high 16 bits for directories and 0 for every other record. -/
theorem c9_directories :
    (∀ (files : List FileRecord) (name : String) (dT dD : Nat),
      mapHas files (if endsWithSlash name then name else appendSlash name) = false →
      addFolder files name dT dD
        = files ++ [{ name := if endsWithSlash name then name else appendSlash name,
                      encodedName :=
                        utf8Encode (if endsWithSlash name then name else appendSlash name),
                      content := .bytes [], crc32 := some 0, size := 0,
                      isDirectory := true, dosTime := dT, dosDate := dD,
                      localHeaderOffset := -1 }]) ∧
    (∀ (files : List FileRecord) (name : String) (dT dD : Nat),
      mapHas files (if endsWithSlash name then name else appendSlash name) = true →
      addFolder files name dT dD = files) ∧
    (∀ name : String,
      endsWithSlash (if endsWithSlash name then name else appendSlash name) = true) ∧
    (∀ r : FileRecord, r.isDirectory = true → emittedContent r = []) ∧
    (∀ r : FileRecord, r.isDirectory = true →
      readU32 (createCentralDirectoryHeader r) 38 = 0x10 * 65536) ∧
    (∀ r : FileRecord, r.isDirectory = false →
      readU32 (createCentralDirectoryHeader r) 38 = 0) := by
  refine ⟨?_, ?_, ?_, ?_, ?_, ?_⟩
  · intro files name dT dD h
    simp [addFolder, mapSet, h]
  · intro files name dT dD h
    simp [addFolder, h]
  · intro name
    by_cases h : endsWithSlash name
    · simp [h]
    · have hc : ¬ (name.data.getLast? = some (Char.ofNat 47)) := by
        simpa [endsWithSlash] using h
      simp [endsWithSlash, appendSlash, hc, List.getLast?_concat]
  · intro r h
    simp [emittedContent, h]
  · intro r h
    rw [readU32_eq, cdh_extAttr_seg r, h]
    rw [if_pos rfl, decodeLE_u32Bytes]
  · intro r h
    rw [readU32_eq, cdh_extAttr_seg r, h]
    rw [if_neg (by simp), decodeLE_u32Bytes]

/-- Witness for claim C9: registering folder01 in an empty registry. -/
theorem c9_directories_witness :
    addFolder [] "folder01" 0 0
      = [{ name := appendSlash "folder01", encodedName := utf8Encode (appendSlash "folder01"),
           content := .bytes [], crc32 := some 0, size := 0,
           isDirectory := true, dosTime := 0, dosDate := 0, localHeaderOffset := -1 }] := by
  have h := c9_directories.1 [] "folder01" 0 0 (by decide)
  rw [h]
  rw [show (if endsWithSlash "folder01" then "folder01" else appendSlash "folder01")
      = appendSlash "folder01" from by decide]
  rfl

end BrowserZip
